import Mathlib

/-!
# Bank management system: account record and account registry

A shallow embedding of `src/main.cpp`.

Modelling conventions.

* `double` values (balance, amounts) are values of `Bank.Double`: a finite value is
  given by its exact rational value, and `-0.0`, the two infinities and NaN are
  separate values.  `+` and `-` compute the exact result and round it to the nearest
  double, ties to even, with gradual underflow and overflow to an infinity; `<` and
  `<=` are false on a NaN.  A NaN carries no sign or payload.
* `int` account numbers are `Int`; the program never does arithmetic on them.
* `std::map<int, Account> accounts` (the global registry) is an association list
  with pairwise distinct keys (`AList`), passed explicitly through every
  operation.  `find` is `AList.lookup`, `erase` is `AList.erase`, assignment
  through `operator[]` is `AList.insert`, and a mutation through the pointer
  returned by `findAccount` is an in-place `AList.replace`.
* Text written to `cout` is returned as a `String`; values read from `cin` are
  arguments of the handler (every read is assumed to deliver a value of its type).
  In a run of the menu loop (`Op`, `step`, `run`) an amount read by `cin >> double`
  is finite and is given by its exact rational value.
* The handlers `displayAccount`, `searchAccount` and `showHistory` call only `const`
  methods and leave the registry as it is; they are not part of the embedding.
-/

namespace Bank

/-! ## The machine type `double` (IEEE 754 binary64) -/

/-- A value of type `double`: a finite value other than `-0.0` (given by its exact
rational value), `-0.0`, an infinity with its sign, or a NaN. -/
inductive Double where
  | fin (q : ℚ)
  | negZero
  | inf (neg : Bool)
  | nan
  deriving DecidableEq

/-- The rationals that are values of finite doubles: `m * 2 ^ e` with a significand
of at most 53 bits and `-1074 ≤ e ≤ 971`. -/
def Representable (q : ℚ) : Prop :=
  ∃ m e : Int, m.natAbs < 2 ^ 53 ∧ -1074 ≤ e ∧ e ≤ 971 ∧ q = (m : ℚ) * (2 : ℚ) ^ e

/-- Nearest integer to a non-negative rational, ties going to the even neighbour. -/
def roundHalfEven (q : ℚ) : Int :=
  let f := Rat.floor q
  let d := q - (f : ℚ)
  if d < 1 / 2 then f
  else if 1 / 2 < d then f + 1
  else if f % 2 = 0 then f else f + 1

/-- Binary logarithm of a natural number, rounded down, by repeated halving. -/
def log2Fuel : Nat → Nat → Nat
  | 0, _ => 0
  | fuel + 1, n => if 2 ≤ n then log2Fuel fuel (n / 2) + 1 else 0

/-- Binary logarithm of a natural number, rounded down (`0` at `0`). -/
def natLog2 (n : Nat) : Nat := log2Fuel n n

/-- Binary logarithm of a positive rational, rounded down. -/
def ilog2 (a : ℚ) : Int :=
  let k : Int := (natLog2 a.num.natAbs : Int) - (natLog2 a.den : Int)
  if (2 : ℚ) ^ k ≤ a then k else k - 1

/-- Rounding of an exact result to `double` in the default mode (to nearest, ties to
even): 53 significant bits, gradual underflow below `2 ^ (-1022)`, and overflow to
an infinity from `2 ^ 1024 - 2 ^ 970` on. -/
def Double.round (q : ℚ) : Double :=
  let e : Int := max (ilog2 |q| - 52) (-1074)
  let m : Int := roundHalfEven (|q| / (2 : ℚ) ^ e)
  let r : ℚ := (m : ℚ) * (2 : ℚ) ^ e
  if (2 : ℚ) ^ (1024 : Nat) ≤ r then .inf (decide (q < 0))
  else if m = 0 then (if q < 0 then .negZero else .fin 0)
  else .fin (if q < 0 then -r else r)

/-- Unary minus on `double`. -/
def Double.neg : Double → Double
  | .fin q => if q = 0 then .negZero else .fin (-q)
  | .negZero => .fin 0
  | .inf s => .inf (!s)
  | .nan => .nan

/-- The operator `+` on `double`. -/
def Double.add : Double → Double → Double
  | .fin x, .fin y => Double.round (x + y)
  | .fin x, .negZero => .fin x
  | .negZero, .fin y => .fin y
  | .negZero, .negZero => .negZero
  | .fin _, .inf t => .inf t
  | .negZero, .inf t => .inf t
  | .inf s, .fin _ => .inf s
  | .inf s, .negZero => .inf s
  | .inf s, .inf t => if s = t then .inf s else .nan
  | .nan, _ => .nan
  | _, .nan => .nan

/-- The operator `-` on `double`: `a - b` is `a + (-b)`. -/
def Double.sub (a b : Double) : Double := a.add b.neg

/-- The operator `<` on `double`; false whenever an operand is a NaN. -/
def Double.lt : Double → Double → Prop
  | .fin x, .fin y => x < y
  | .fin x, .negZero => x < 0
  | .negZero, .fin y => 0 < y
  | .negZero, .negZero => False
  | .fin _, .inf t => t = false
  | .negZero, .inf t => t = false
  | .inf s, .fin _ => s = true
  | .inf s, .negZero => s = true
  | .inf s, .inf t => s = true ∧ t = false
  | .nan, _ => False
  | _, .nan => False

/-- The operator `<=` on `double`; false whenever an operand is a NaN. -/
def Double.le : Double → Double → Prop
  | .fin x, .fin y => x ≤ y
  | .fin x, .negZero => x ≤ 0
  | .negZero, .fin y => 0 ≤ y
  | .negZero, .negZero => True
  | .fin _, .inf t => t = false
  | .negZero, .inf t => t = false
  | .inf s, .fin _ => s = true
  | .inf s, .negZero => s = true
  | .inf s, .inf t => s = true ∨ t = false
  | .nan, _ => False
  | _, .nan => False

instance : Add Double := ⟨Double.add⟩
instance : Sub Double := ⟨Double.sub⟩
instance : LT Double := ⟨Double.lt⟩
instance : LE Double := ⟨Double.le⟩

instance Double.decLt (a b : Double) : Decidable (a < b) := by
  cases a <;> cases b <;> simp only [LT.lt, Double.lt] <;> infer_instance

instance Double.decLe (a b : Double) : Decidable (a ≤ b) := by
  cases a <;> cases b <;> simp only [LE.le, Double.le] <;> infer_instance

/-- The values a `cin >> double` can deliver and arithmetic on them can reach
without overflow: the finite ones. -/
def Double.isFinite : Double → Bool
  | .fin _ => true
  | .negZero => true
  | _ => false

/-! ## `std::to_string(double)`: the `"%f"` rendering -/

/-- Decimal digits of `n`, left-padded with zeros to six places. -/
def pad6 (n : Nat) : String :=
  let s := toString n
  String.mk (List.replicate (6 - s.length) '0') ++ s

/-- The library function `std::to_string(double)`, i.e. `sprintf` with `"%f"`:
sign, integer part, a point and exactly six fractional digits. -/
def to_string : Double → String
  | .fin x =>
    let n := (roundHalfEven (|x| * 1000000)).toNat
    (if x < 0 then "-" else "") ++ toString (n / 1000000) ++ "." ++ pad6 (n % 1000000)
  | .negZero => "-0.000000"
  | .inf false => "inf"
  | .inf true => "-inf"
  | .nan => "nan"

/-! ## The account record (`class Account`) -/

/-- The four private fields of `class Account`. -/
structure Account where
  accountNumber : Int
  name : String
  balance : Double
  transactionHistory : List String
  deriving DecidableEq

/-- The constructor `Account(int accNo, string accName, double initialBalance)`. -/
def Account.mk3 (accNo : Int) (accName : String) (initialBalance : Double) : Account :=
  { accountNumber := accNo
    name := accName
    balance := initialBalance
    transactionHistory := ["Account created with balance Rs. " ++ to_string initialBalance] }

/-- The getter `Account::getAccountNumber`. -/
def Account.getAccountNumber (a : Account) : Int := a.accountNumber

/-- The method `Account::deposit`: the record afterwards and the text written to `cout`. -/
def Account.deposit (a : Account) (amount : Double) : Account × String :=
  if amount > Double.fin 0 then
    ({ a with
        balance := a.balance + amount
        transactionHistory := a.transactionHistory ++ ["Deposited Rs. " ++ to_string amount] },
      "Amount deposited successfully.\n")
  else
    (a, "Invalid amount.\n")

/-- The method `Account::withdraw`: the record afterwards and the text written to `cout`. -/
def Account.withdraw (a : Account) (amount : Double) : Account × String :=
  if amount > Double.fin 0 ∧ amount ≤ a.balance then
    ({ a with
        balance := a.balance - amount
        transactionHistory := a.transactionHistory ++ ["Withdrawn Rs. " ++ to_string amount] },
      "Amount withdrawn successfully.\n")
  else
    (a, "Invalid or insufficient amount.\n")

/-! ## The registry (`map<int, Account> accounts`) and its handlers -/

/-- The global `map<int, Account> accounts`. -/
abbrev Registry := AList (fun _ : Int => Account)

/-- The registry at program start. -/
def Registry.empty : Registry := ∅

/-- The function `findAccount`: the record stored under `accNo`, or `none` for `nullptr`. -/
def findAccount (accounts : Registry) (accNo : Int) : Option Account :=
  accounts.lookup accNo

/-- The handler `createAccount`, with the three values it reads from `cin`. -/
def createAccount (accounts : Registry) (accNo : Int) (name : String)
    (initialBalance : Double) : Registry × String :=
  match findAccount accounts accNo with
  | some _ => (accounts, "Enter Account Number: " ++ "Account already exists!\n")
  | none =>
    (accounts.insert accNo (Account.mk3 accNo name initialBalance),
      "Enter Account Number: " ++ "Enter Name: " ++ "Enter Initial Balance: "
        ++ "Account created successfully.\n")

/-- The handler `depositMoney`, with the two values it reads from `cin`. -/
def depositMoney (accounts : Registry) (accNo : Int) (amount : Double) : Registry × String :=
  match findAccount accounts accNo with
  | some acc =>
    let r := acc.deposit amount
    (accounts.replace accNo r.1, "Enter Account Number: " ++ "Enter amount to deposit: " ++ r.2)
  | none => (accounts, "Enter Account Number: " ++ "Account not found.\n")

/-- The handler `withdrawMoney`, with the two values it reads from `cin`. -/
def withdrawMoney (accounts : Registry) (accNo : Int) (amount : Double) : Registry × String :=
  match findAccount accounts accNo with
  | some acc =>
    let r := acc.withdraw amount
    (accounts.replace accNo r.1, "Enter Account Number: " ++ "Enter amount to withdraw: " ++ r.2)
  | none => (accounts, "Enter Account Number: " ++ "Account not found.\n")

/-- The call `accounts.erase(accNo)` of `std::map`: the map without the key, and
the number of entries removed. -/
def eraseKey (accounts : Registry) (accNo : Int) : Registry × Nat :=
  let after := accounts.erase accNo
  (after, accounts.entries.length - after.entries.length)

/-- The handler `deleteAccount`, with the value it reads from `cin`. -/
def deleteAccount (accounts : Registry) (accNo : Int) : Registry × String :=
  let r := eraseKey accounts accNo
  if r.2 ≠ 0 then
    (r.1, "Enter Account Number to close: " ++ "Account closed successfully.\n")
  else
    (r.1, "Enter Account Number to close: " ++ "Account not found.\n")

/-! ## Runs of the menu loop -/

/-- One state-changing menu choice of `main` together with the values typed in; an
amount is the exact value of the finite double that `cin` delivers. -/
inductive Op where
  | create (accNo : Int) (name : String) (initialBalance : ℚ)
  | deposit (accNo : Int) (amount : ℚ)
  | withdraw (accNo : Int) (amount : ℚ)
  | close (accNo : Int)
  deriving DecidableEq

/-- The `switch` of `main` on choices 1, 2, 3 and 7. -/
def step (accounts : Registry) : Op → Registry
  | .create accNo name initialBalance =>
    (createAccount accounts accNo name (Double.fin initialBalance)).1
  | .deposit accNo amount => (depositMoney accounts accNo (Double.fin amount)).1
  | .withdraw accNo amount => (withdrawMoney accounts accNo (Double.fin amount)).1
  | .close accNo => (deleteAccount accounts accNo).1

/-- The registry after a sequence of menu choices, starting from `accounts`. -/
def runFrom (accounts : Registry) (ops : List Op) : Registry :=
  ops.foldl step accounts

/-- The registry after a sequence of menu choices, starting from the empty registry. -/
def run (ops : List Op) : Registry :=
  runFrom Registry.empty ops

/-! ## Facts about rounding -/

/-- With enough fuel, `log2Fuel` brackets a positive `n` between two powers of two. -/
theorem log2Fuel_bounds : ∀ fuel n : Nat, n ≤ fuel → 1 ≤ n →
    2 ^ log2Fuel fuel n ≤ n ∧ n < 2 ^ (log2Fuel fuel n + 1)
  | 0, n, h, h1 => by omega
  | fuel + 1, n, h, h1 => by
    unfold log2Fuel
    split_ifs with h2
    · have ih := log2Fuel_bounds fuel (n / 2) (by omega) (by omega)
      obtain ⟨ih1, ih2⟩ := ih
      rw [pow_succ] at ih2
      constructor
      · rw [pow_succ]; omega
      · rw [pow_succ, pow_succ]; omega
    · simp; omega

/-- The function `natLog2` brackets a positive `n` between two powers of two. -/
theorem natLog2_bounds (n : Nat) (h : 1 ≤ n) :
    2 ^ natLog2 n ≤ n ∧ n < 2 ^ (natLog2 n + 1) :=
  log2Fuel_bounds n n le_rfl h

/-- The power of two picked by `ilog2` does not exceed a positive rational. -/
theorem two_zpow_ilog2_le (a : ℚ) (ha : 0 < a) : (2 : ℚ) ^ ilog2 a ≤ a := by
  unfold ilog2
  simp only
  split_ifs with h
  · exact h
  · have hn : 0 < a.num := Rat.num_pos.2 ha
    have hn1 : 1 ≤ a.num.natAbs := by omega
    have hd1 : 1 ≤ a.den := a.den_pos
    obtain ⟨h1, _⟩ := natLog2_bounds a.num.natAbs hn1
    obtain ⟨_, h2⟩ := natLog2_bounds a.den hd1
    have hnum : (a.num : ℚ) = (a.num.natAbs : ℚ) := by
      conv_lhs => rw [← Int.natAbs_of_nonneg hn.le]
      exact Int.cast_natCast _
    have ha' : a = (a.num.natAbs : ℚ) / (a.den : ℚ) := by
      rw [← hnum]; exact (Rat.num_div_den a).symm
    have h1' : (2 : ℚ) ^ natLog2 a.num.natAbs ≤ (a.num.natAbs : ℚ) := by exact_mod_cast h1
    have h2' : (a.den : ℚ) ≤ (2 : ℚ) ^ (natLog2 a.den + 1) := by exact_mod_cast h2.le
    have hdpos : (0 : ℚ) < (a.den : ℚ) := by exact_mod_cast a.den_pos
    have e : (2 : ℚ) ^ ((natLog2 a.num.natAbs : Int) - (natLog2 a.den : Int) - 1)
        = (2 : ℚ) ^ natLog2 a.num.natAbs / (2 : ℚ) ^ (natLog2 a.den + 1) := by
      rw [sub_sub, zpow_sub₀ (by norm_num : (2 : ℚ) ≠ 0)]
      norm_cast
    rw [e]
    conv_rhs => rw [ha']
    exact div_le_div₀ (by positivity) h1' hdpos h2'



/-- The floor of an integer is that integer. -/
theorem rat_floor_intCast (n : Int) : Rat.floor (n : ℚ) = n := by
  show ⌊(n : ℚ)⌋ = n
  exact Int.floor_intCast n

/-- Rounding an integer to the nearest integer returns it. -/
theorem roundHalfEven_intCast (n : Int) : roundHalfEven (n : ℚ) = n := by
  unfold roundHalfEven
  simp only [rat_floor_intCast, sub_self]
  norm_num

/-- Rounding a non-negative rational gives a non-negative integer. -/
theorem roundHalfEven_nonneg (q : ℚ) (h : 0 ≤ q) : 0 ≤ roundHalfEven q := by
  have hf : (0 : Int) ≤ Rat.floor q := Rat.le_floor.2 (by exact_mod_cast h)
  unfold roundHalfEven
  simp only
  split_ifs <;> omega

/-- Rounding keeps the sign: a non-negative exact result rounds to a double `≥ 0`
(possibly `+inf`). -/
theorem round_nonneg (q : ℚ) (h : 0 ≤ q) : Double.fin 0 ≤ Double.round q := by
  have hq : ¬ q < 0 := not_lt.2 h
  have hm : (0 : Int) ≤ roundHalfEven (|q| / (2 : ℚ) ^ max (ilog2 |q| - 52) (-1074)) :=
    roundHalfEven_nonneg _ (by positivity)
  unfold Double.round
  simp only [hq, decide_False, if_false]
  split_ifs
  · show Double.le _ _
    simp [Double.le]
  · show Double.le _ _
    simp [Double.le]
  · show Double.le _ _
    simp only [Double.le]
    have : (0 : ℚ) ≤ (roundHalfEven (|q| / (2 : ℚ) ^ max (ilog2 |q| - 52) (-1074)) : ℚ) := by
      exact_mod_cast hm
    positivity

/-- Rounding is exact on the values of doubles. -/
theorem round_of_representable (q : ℚ) (h : Representable q) : Double.round q = Double.fin q := by
  obtain ⟨m, e', hm, he1, he2, rfl⟩ := h
  by_cases hm0 : m = 0
  · subst hm0
    simp only [Int.cast_zero, zero_mul]
    decide!
  have h2 : (0 : ℚ) < 2 := by norm_num
  have hpow : ∀ k : Int, (0 : ℚ) < (2 : ℚ) ^ k := fun k => zpow_pos h2 k
  set a : ℚ := |(m : ℚ) * (2 : ℚ) ^ e'| with ha
  have ha_eq : a = (m.natAbs : ℚ) * (2 : ℚ) ^ e' := by
    rw [ha, abs_mul, abs_of_pos (hpow e'), Nat.cast_natAbs, Int.cast_abs]
  have hn_pos : 0 < m.natAbs := Int.natAbs_pos.2 hm0
  generalize m.natAbs = n at hm ha_eq hn_pos
  have hnat_pos : (0 : ℚ) < (n : ℚ) := by exact_mod_cast hn_pos
  have ha_pos : 0 < a := by rw [ha_eq]; exact mul_pos hnat_pos (hpow e')
  have hnat_lt : (n : ℚ) < (2 : ℚ) ^ (53 : Int) := by
    have h53 : (2 : ℚ) ^ (53 : Int) = ((2 ^ 53 : Nat) : ℚ) := by norm_num
    rw [h53]
    exact_mod_cast hm
  have ha_lt : a < (2 : ℚ) ^ (53 + e') := by
    rw [ha_eq, zpow_add₀ h2.ne']
    exact mul_lt_mul_of_pos_right hnat_lt (hpow e')
  have hlog : ilog2 a < 53 + e' := by
    have := lt_of_le_of_lt (two_zpow_ilog2_le a ha_pos) ha_lt
    exact (zpow_lt_zpow_iff_right₀ (by norm_num : (1 : ℚ) < 2)).1 this
  set e : Int := max (ilog2 a - 52) (-1074) with he
  have hee : e ≤ e' := max_le (by omega) he1
  obtain ⟨d, hd⟩ : ∃ d : Nat, e' = e + d := ⟨(e' - e).toNat, by omega⟩
  have hdiv : a / (2 : ℚ) ^ e = ((n * 2 ^ d : Nat) : Int) := by
    rw [ha_eq, hd, zpow_add₀ h2.ne', zpow_natCast]
    have he0 : (2 : ℚ) ^ e ≠ 0 := (hpow e).ne'
    field_simp
    ring
  have hr : ((roundHalfEven (a / (2 : ℚ) ^ e) : Int) : ℚ) * (2 : ℚ) ^ e = a := by
    rw [hdiv, roundHalfEven_intCast, ← hdiv]
    have he0 : (2 : ℚ) ^ e ≠ 0 := (hpow e).ne'
    field_simp
  have hmne : roundHalfEven (a / (2 : ℚ) ^ e) ≠ 0 := by
    intro h0
    rw [h0] at hr
    simp at hr
    exact ha_pos.ne hr
  have hno : ¬ (2 : ℚ) ^ (1024 : Nat) ≤ a := by
    rw [not_le]
    refine lt_of_lt_of_le ha_lt ?_
    rw [← zpow_natCast]
    exact (zpow_le_zpow_iff_right₀ (by norm_num : (1 : ℚ) < 2)).2 (by push_cast; omega)
  unfold Double.round
  simp only [← ha, ← he, hr, hno, hmne, if_false]
  congr 1
  split_ifs with hneg
  · rw [ha, abs_of_neg hneg, neg_neg]
  · rw [ha, abs_of_nonneg (not_lt.1 hneg)]

/-- The integer picked by `roundHalfEven` is within one half of its argument. -/
theorem roundHalfEven_close (t : ℚ) : |(roundHalfEven t : ℚ) - t| ≤ 1 / 2 := by
  have h1 : ((Rat.floor t : Int) : ℚ) ≤ t := Int.floor_le t
  have h2 : t < ((Rat.floor t : Int) : ℚ) + 1 := Int.lt_floor_add_one t
  unfold roundHalfEven
  simp only
  split_ifs with ha hb hc
  · rw [abs_le]; constructor <;> linarith
  · rw [abs_le]; push_cast; constructor <;> linarith
  · rw [abs_le]; constructor <;> linarith
  · rw [abs_le]; push_cast; constructor <;> linarith

/-- No integer is closer to `t` than the one picked by `roundHalfEven`. -/
theorem roundHalfEven_nearest (t : ℚ) (z : Int) :
    |(roundHalfEven t : ℚ) - t| ≤ |(z : ℚ) - t| := by
  by_cases hz : z = roundHalfEven t
  · rw [hz]
  · have h1 : (1 : ℚ) ≤ |(z : ℚ) - (roundHalfEven t : ℚ)| := by
      have : (1 : Int) ≤ |z - roundHalfEven t| := Int.one_le_abs (sub_ne_zero.2 hz)
      exact_mod_cast this
    have h2 := roundHalfEven_close t
    have h3 : |(z : ℚ) - (roundHalfEven t : ℚ)| ≤ |(z : ℚ) - t| + |(roundHalfEven t : ℚ) - t| := by
      have := abs_sub_le (z : ℚ) t (roundHalfEven t : ℚ)
      rwa [abs_sub_comm t (roundHalfEven t : ℚ)] at this
    linarith

/-- A finite result of `Double.round` is the rounded significand times the unit in
the last place, with the sign of the exact result. -/
theorem round_eq_fin (q r : ℚ) (h : Double.round q = Double.fin r) :
    r = ((if q < 0 then -1 else 1 : Int) : ℚ) *
      ((roundHalfEven (|q| / (2 : ℚ) ^ max (ilog2 |q| - 52) (-1074)) : ℚ) *
        (2 : ℚ) ^ max (ilog2 |q| - 52) (-1074)) := by
  unfold Double.round at h
  simp only at h
  split_ifs at h with h1 h2 h3 h4
  · injection h with h
    rw [← h, h2]
    simp
  · injection h with h
    rw [← h]
    simp [h4]
  · injection h with h
    rw [← h]
    simp [h4]

/-- Among the doubles none is closer to the exact result `σ * a` than the rounded
significand times the unit in the last place. -/
theorem nearest_core (a : ℚ) (ha_pos : 0 < a) (σ : Int) (hσ : σ * σ = 1) (d : ℚ)
    (hd : Representable d) :
    |(σ : ℚ) * ((roundHalfEven (a / (2 : ℚ) ^ max (ilog2 a - 52) (-1074)) : ℚ) *
        (2 : ℚ) ^ max (ilog2 a - 52) (-1074)) - (σ : ℚ) * a| ≤ |d - (σ : ℚ) * a| := by
  have h2 : (0 : ℚ) < 2 := by norm_num
  have hpow : ∀ k : Int, (0 : ℚ) < (2 : ℚ) ^ k := fun k => zpow_pos h2 k
  set e : Int := max (ilog2 a - 52) (-1074) with he
  set t : ℚ := a / (2 : ℚ) ^ e with ht
  have hσq : (σ : ℚ) * (σ : ℚ) = 1 := by exact_mod_cast hσ
  have hσabs : |(σ : ℚ)| = 1 := by
    have h1 : |(σ : ℚ)| * |(σ : ℚ)| = 1 := by rw [abs_mul_abs_self, hσq]
    have h0 : 0 ≤ |(σ : ℚ)| := abs_nonneg _
    nlinarith
  have hat : a = t * (2 : ℚ) ^ e := by
    rw [ht]; field_simp
  have hlhs : |(σ : ℚ) * ((roundHalfEven t : ℚ) * (2 : ℚ) ^ e) - (σ : ℚ) * a|
      = (2 : ℚ) ^ e * |(roundHalfEven t : ℚ) - t| := by
    have : (σ : ℚ) * ((roundHalfEven t : ℚ) * (2 : ℚ) ^ e) - (σ : ℚ) * a
        = (σ : ℚ) * (2 : ℚ) ^ e * ((roundHalfEven t : ℚ) - t) := by
      conv_lhs => rw [hat]
      ring
    rw [this, abs_mul, abs_mul, hσabs, abs_of_pos (hpow e), one_mul]
  have hrhs : |d - (σ : ℚ) * a| = |(σ : ℚ) * d - a| := by
    have : (σ : ℚ) * d - a = (σ : ℚ) * (d - (σ : ℚ) * a) := by
      rw [mul_sub, ← mul_assoc, hσq, one_mul]
    rw [this, abs_mul, hσabs, one_mul]
  rw [hlhs, hrhs]
  obtain ⟨M, E, hM, hE1, hE2, rfl⟩ := hd
  by_cases hEe : e ≤ E
  · obtain ⟨k, hk⟩ : ∃ k : Nat, E = e + k := ⟨(E - e).toNat, by omega⟩
    have hz : (σ : ℚ) * ((M : ℚ) * (2 : ℚ) ^ E) - a
        = (2 : ℚ) ^ e * (((σ * M * 2 ^ k : Int) : ℚ) - t) := by
      rw [hk, zpow_add₀ h2.ne', zpow_natCast]
      conv_lhs => rw [hat]
      push_cast
      ring
    rw [hz, abs_mul, abs_of_pos (hpow e)]
    exact mul_le_mul_of_nonneg_left (roundHalfEven_nearest t _) (hpow e).le
  · have hEe' : E + 1 ≤ e := by omega
    have heL : ilog2 a = e + 52 := by
      rcases max_cases (ilog2 a - 52) (-1074) with ⟨h1, _⟩ | ⟨h1, _⟩
      · rw [he, h1]; ring
      · rw [he, h1] at hEe'; omega
    have hclose := roundHalfEven_close t
    have hbound : (2 : ℚ) ^ e * |(roundHalfEven t : ℚ) - t| ≤ (2 : ℚ) ^ e * (1 / 2) :=
      mul_le_mul_of_nonneg_left hclose (hpow e).le
    have hlow : (2 : ℚ) ^ (e + 52) ≤ a := by
      have := two_zpow_ilog2_le a ha_pos
      rwa [heL] at this
    have hMabs : |(M : ℚ)| ≤ (2 : ℚ) ^ (53 : Nat) - 1 := by
      have : (M.natAbs : ℚ) ≤ ((2 ^ 53 - 1 : Nat) : ℚ) := by
        exact_mod_cast Nat.le_pred_of_lt hM
      rw [Nat.cast_natAbs, Int.cast_abs] at this
      refine le_trans this ?_
      norm_num
    have hEpow : (2 : ℚ) ^ E ≤ (2 : ℚ) ^ (e - 1) :=
      (zpow_le_zpow_iff_right₀ (by norm_num : (1 : ℚ) < 2)).2 (by omega)
    have hdabs : |(σ : ℚ) * ((M : ℚ) * (2 : ℚ) ^ E)|
        ≤ ((2 : ℚ) ^ (53 : Nat) - 1) * (2 : ℚ) ^ (e - 1) := by
      rw [abs_mul, hσabs, one_mul, abs_mul, abs_of_pos (hpow E)]
      exact mul_le_mul hMabs hEpow (hpow E).le (by norm_num)
    have he1 : (2 : ℚ) ^ e = 2 * (2 : ℚ) ^ (e - 1) := by
      rw [show e = (e - 1) + 1 by ring, zpow_add₀ h2.ne']
      simp
      ring
    have he52 : (2 : ℚ) ^ (e + 52) = (2 : ℚ) ^ (53 : Nat) * (2 : ℚ) ^ (e - 1) := by
      rw [show e + 52 = (e - 1) + (53 : Nat) by push_cast; ring, zpow_add₀ h2.ne', zpow_natCast]
      ring
    have hrev : |a| - |(σ : ℚ) * ((M : ℚ) * (2 : ℚ) ^ E)|
        ≤ |(σ : ℚ) * ((M : ℚ) * (2 : ℚ) ^ E) - a| := by
      rw [abs_sub_comm]
      exact abs_sub_abs_le_abs_sub _ _
    rw [abs_of_pos ha_pos] at hrev
    have hp := hpow (e - 1)
    nlinarith

/-- A finite result of `Double.round` is at least as close to the exact result as
any double. -/
theorem round_nearest (q r : ℚ) (h : Double.round q = Double.fin r) (d : ℚ)
    (hd : Representable d) : |r - q| ≤ |d - q| := by
  by_cases hq0 : q = 0
  · subst hq0
    have : Double.round 0 = Double.fin 0 := by decide!
    rw [this] at h
    injection h with h
    rw [← h]
    simp
  have hr := round_eq_fin q r h
  have hq : q = ((if q < 0 then -1 else 1 : Int) : ℚ) * |q| := by
    split_ifs with hneg
    · rw [abs_of_neg hneg]; push_cast; ring
    · rw [abs_of_nonneg (not_lt.1 hneg)]; push_cast; ring
  have hσ : (if q < 0 then -1 else 1 : Int) * (if q < 0 then -1 else 1 : Int) = 1 := by
    split_ifs <;> norm_num
  have := nearest_core |q| (abs_pos.2 hq0) (if q < 0 then -1 else 1) hσ d hd
  rw [← hr, ← hq] at this
  exact this


/-- A positive rational is below the next power of two after the one picked by `ilog2`. -/
theorem lt_two_zpow_ilog2_succ (a : ℚ) (ha : 0 < a) : a < (2 : ℚ) ^ (ilog2 a + 1) := by
  unfold ilog2
  simp only
  split_ifs with h
  · have hn : 0 < a.num := Rat.num_pos.2 ha
    have hn1 : 1 ≤ a.num.natAbs := by omega
    have hd1 : 1 ≤ a.den := a.den_pos
    obtain ⟨_, h1⟩ := natLog2_bounds a.num.natAbs hn1
    obtain ⟨h2, _⟩ := natLog2_bounds a.den hd1
    have hnum : (a.num : ℚ) = (a.num.natAbs : ℚ) := by
      conv_lhs => rw [← Int.natAbs_of_nonneg hn.le]
      exact Int.cast_natCast _
    have ha' : a = (a.num.natAbs : ℚ) / (a.den : ℚ) := by
      rw [← hnum]; exact (Rat.num_div_den a).symm
    have h1' : (a.num.natAbs : ℚ) < (2 : ℚ) ^ (natLog2 a.num.natAbs + 1) := by exact_mod_cast h1
    have h2' : (2 : ℚ) ^ natLog2 a.den ≤ (a.den : ℚ) := by exact_mod_cast h2
    have hdpos : (0 : ℚ) < (2 : ℚ) ^ natLog2 a.den := by positivity
    have e : (2 : ℚ) ^ ((natLog2 a.num.natAbs : Int) - (natLog2 a.den : Int) + 1)
        = (2 : ℚ) ^ (natLog2 a.num.natAbs + 1) / (2 : ℚ) ^ natLog2 a.den := by
      rw [show (natLog2 a.num.natAbs : Int) - (natLog2 a.den : Int) + 1
          = ((natLog2 a.num.natAbs + 1 : Nat) : Int) - (natLog2 a.den : Int) by push_cast; ring,
        zpow_sub₀ (by norm_num : (2 : ℚ) ≠ 0)]
      norm_cast
    rw [e]
    conv_lhs => rw [ha']
    exact div_lt_div₀ h1' h2' (by positivity) hdpos
  · rw [sub_add_cancel]
    exact not_le.1 h


/-- A finite result of `Double.round` lies below the overflow threshold. -/
theorem round_fin_lt (q r : ℚ) (h : Double.round q = Double.fin r) :
    (roundHalfEven (|q| / (2 : ℚ) ^ max (ilog2 |q| - 52) (-1074)) : ℚ) *
        (2 : ℚ) ^ max (ilog2 |q| - 52) (-1074) < (2 : ℚ) ^ (1024 : Nat) := by
  unfold Double.round at h
  simp only at h
  split_ifs at h with h1 h2 h3 h4
  all_goals exact not_le.1 h1

/-- A finite result of `Double.round` is the value of a double. -/
theorem round_representable (q r : ℚ) (h : Double.round q = Double.fin r) :
    Representable r := by
  have h2 : (0 : ℚ) < 2 := by norm_num
  have h12 : (1 : ℚ) < 2 := by norm_num
  have hpow : ∀ k : Int, (0 : ℚ) < (2 : ℚ) ^ k := fun k => zpow_pos h2 k
  by_cases hq0 : q = 0
  · subst hq0
    have : Double.round 0 = Double.fin 0 := by decide!
    rw [this] at h
    injection h with h
    exact ⟨0, 0, by norm_num, by norm_num, by norm_num, by rw [← h]; simp⟩
  have hr := round_eq_fin q r h
  have hno := round_fin_lt q r h
  have hσ : ((if q < 0 then -1 else 1 : Int)).natAbs = 1 := by
    split_ifs <;> rfl
  generalize (if q < 0 then -1 else 1 : Int) = σ at hr hσ
  have ha_pos : 0 < |q| := abs_pos.2 hq0
  generalize |q| = a at hr hno ha_pos
  have hlow := two_zpow_ilog2_le a ha_pos
  have hupp := lt_two_zpow_ilog2_succ a ha_pos
  set e : Int := max (ilog2 a - 52) (-1074) with he
  have he1 : ilog2 a - 52 ≤ e := le_max_left _ _
  have he2 : -1074 ≤ e := le_max_right _ _
  set t : ℚ := a / (2 : ℚ) ^ e with ht
  have hat : a = t * (2 : ℚ) ^ e := by
    rw [ht]; field_simp
  have ht_nonneg : 0 ≤ t := div_nonneg ha_pos.le (hpow e).le
  have hclose := abs_le.1 (roundHalfEven_close t)
  have hm0 : 0 ≤ roundHalfEven t := roundHalfEven_nonneg t ht_nonneg
  have ht_lt : t < (2 : ℚ) ^ (53 : Nat) := by
    have h1 : t * (2 : ℚ) ^ e < (2 : ℚ) ^ (53 : Nat) * (2 : ℚ) ^ e := by
      rw [← hat, ← zpow_natCast, ← zpow_add₀ h2.ne']
      refine lt_of_lt_of_le hupp ?_
      exact (zpow_le_zpow_iff_right₀ h12).2 (by push_cast; omega)
    exact lt_of_mul_lt_mul_right h1 (hpow e).le
  have hm_le : roundHalfEven t ≤ 2 ^ 53 := by
    have : (roundHalfEven t : ℚ) < ((2 ^ 53 + 1 : Int) : ℚ) := by
      push_cast
      linarith [hclose.2]
    have := Int.cast_lt.1 this
    omega
  rcases lt_or_eq_of_le hm_le with hlt | heq
  · have he971 : e ≤ 971 := by
      rcases max_cases (ilog2 a - 52) (-1074) with ⟨h1, _⟩ | ⟨h1, _⟩
      · have heL : ilog2 a = e + 52 := by rw [he, h1]; ring
        have ht_ge : (2 : ℚ) ^ (52 : Nat) ≤ t := by
          have h3 : (2 : ℚ) ^ (52 : Nat) * (2 : ℚ) ^ e ≤ t * (2 : ℚ) ^ e := by
            rw [← hat, ← zpow_natCast, ← zpow_add₀ h2.ne']
            rw [heL] at hlow
            rwa [show ((52 : Nat) : Int) + e = e + 52 by push_cast; ring]
          exact le_of_mul_le_mul_right h3 (hpow e)
        have hm_ge : (2 : Int) ^ 52 ≤ roundHalfEven t := by
          have : (((2 : Int) ^ 52 - 1 : Int) : ℚ) < (roundHalfEven t : ℚ) := by
            push_cast
            linarith [hclose.1]
          have := Int.cast_lt.1 this
          omega
        have hm_ge' : (2 : ℚ) ^ (52 : Nat) ≤ (roundHalfEven t : ℚ) := by
          exact_mod_cast hm_ge
        have h4 : (2 : ℚ) ^ (52 + e) < (2 : ℚ) ^ (1024 : Int) := by
          rw [zpow_add₀ h2.ne']
          calc (2 : ℚ) ^ (52 : Int) * (2 : ℚ) ^ e
              ≤ (roundHalfEven t : ℚ) * (2 : ℚ) ^ e := by
                refine mul_le_mul_of_nonneg_right ?_ (hpow e).le
                exact_mod_cast hm_ge
            _ < (2 : ℚ) ^ (1024 : Nat) := hno
            _ = (2 : ℚ) ^ (1024 : Int) := by norm_num
        have := (zpow_lt_zpow_iff_right₀ h12).1 h4
        omega
      · rw [he, h1]; norm_num
    refine ⟨σ * roundHalfEven t, e, ?_, he2, he971, ?_⟩
    · rw [Int.natAbs_mul, hσ, one_mul]
      omega
    · rw [hr]; push_cast; ring
  · have he970 : e + 1 ≤ 971 := by
      have h4 : (2 : ℚ) ^ (53 + e) < (2 : ℚ) ^ (1024 : Int) := by
        rw [zpow_add₀ h2.ne']
        calc (2 : ℚ) ^ (53 : Int) * (2 : ℚ) ^ e
            = (roundHalfEven t : ℚ) * (2 : ℚ) ^ e := by rw [heq]; norm_num
          _ < (2 : ℚ) ^ (1024 : Nat) := hno
          _ = (2 : ℚ) ^ (1024 : Int) := by norm_num
      have := (zpow_lt_zpow_iff_right₀ h12).1 h4
      omega
    refine ⟨σ * 2 ^ 52, e + 1, ?_, by omega, he970, ?_⟩
    · rw [Int.natAbs_mul, hσ, one_mul]
      norm_num
    · rw [hr, heq, zpow_add₀ h2.ne']
      push_cast
      ring

/-- Known roundings: the double nearest to `0.1`; a tie broken towards the even
significand at `2 ^ 53`; the largest double, the overflow threshold just above it;
and a tie among the subnormals. -/
theorem round_samples :
    Double.round (1 / 10) = Double.fin (3602879701896397 / 36028797018963968) ∧
    Double.round (2 ^ 53 + 1) = Double.fin (2 ^ 53) ∧
    Double.round (2 ^ 53 + 3) = Double.fin (2 ^ 53 + 4) ∧
    Double.round (2 ^ 1024 - 2 ^ 971 + 2 ^ 969) = Double.fin (2 ^ 1024 - 2 ^ 971) ∧
    Double.round (2 ^ 1024 - 2 ^ 971 + 2 ^ 970) = Double.inf false ∧
    Double.round (-(2 ^ 1024)) = Double.inf true ∧
    Double.round (3 / 2 ^ 1075) = Double.fin (2 / 2 ^ 1074) ∧
    Double.round (1 / 2 ^ 1075) = Double.fin 0 ∧
    Double.round (-1 / 2 ^ 1075) = Double.negZero := by
  decide!

/-! ## Facts about the registry operations -/

/-- Looking up a present key after `kreplace` on that key gives the new value. -/
theorem dlookup_kreplace_self {β : Type} (a : Int) (b : β) :
    ∀ l : List (Sigma fun _ : Int => β), a ∈ l.keys →
      List.dlookup a (List.kreplace a b l) = some b
  | [], h => by simp at h
  | ⟨a', b'⟩ :: l, h => by
    by_cases e : a = a'
    · subst e
      simp [List.kreplace, List.lookmap_cons_some]
    · have h' : a ∈ l.keys := by
        simpa [List.keys_cons, e] using h
      have ih := dlookup_kreplace_self a b l h'
      rw [List.kreplace, List.lookmap_cons_none _ _ (by simp [e])]
      rw [List.dlookup_cons_ne _ _ (by simpa using e)]
      exact ih

/-- Looking up another key is not affected by `kreplace`. -/
theorem dlookup_kreplace_ne {β : Type} {k a : Int} (h : k ≠ a) (b : β) :
    ∀ l : List (Sigma fun _ : Int => β),
      List.dlookup k (List.kreplace a b l) = List.dlookup k l
  | [] => by simp [List.kreplace]
  | ⟨a', b'⟩ :: l => by
    by_cases e : a = a'
    · subst e
      have hs : List.kreplace a b (⟨a, b'⟩ :: l) = ⟨a, b⟩ :: l := by
        simp [List.kreplace, List.lookmap_cons_some]
      rw [hs, List.dlookup_cons_ne _ _ (by simpa using h), List.dlookup_cons_ne _ _ (by simpa using h)]
    · have ih := dlookup_kreplace_ne h b l
      rw [List.kreplace, List.lookmap_cons_none _ _ (by simp [e])]
      by_cases e' : k = a'
      · subst e'
        simp
      · rw [List.dlookup_cons_ne _ _ (by simpa using e'), List.dlookup_cons_ne _ _ (by simpa using e')]
        exact ih

/-- After an in-place update of a present key, `lookup` returns the updated record. -/
theorem lookup_replace_self {accounts : Registry} {accNo : Int} (h : accNo ∈ accounts)
    (acc : Account) : (accounts.replace accNo acc).lookup accNo = some acc :=
  dlookup_kreplace_self accNo acc accounts.entries h

/-- An in-place update under `accNo` does not change the lookup of any other key. -/
theorem lookup_replace_ne {accounts : Registry} {k accNo : Int} (h : k ≠ accNo)
    (acc : Account) : (accounts.replace accNo acc).lookup k = accounts.lookup k :=
  dlookup_kreplace_ne h acc accounts.entries

/-- Erasing a key that is not in the registry returns the registry itself. -/
theorem erase_of_not_mem {accounts : Registry} {accNo : Int} (h : accNo ∉ accounts) :
    accounts.erase accNo = accounts :=
  AList.ext (List.kerase_of_not_mem_keys h)

/-- The count returned by `erase` is 1 when the key is present. -/
theorem eraseKey_count_of_mem {accounts : Registry} {accNo : Int} (h : accNo ∈ accounts) :
    (eraseKey accounts accNo).2 = 1 := by
  have hk : accNo ∈ accounts.keys := h
  have h1 : (accounts.erase accNo).keys.length = accounts.keys.length - 1 := by
    rw [AList.keys_erase, List.length_erase_of_mem hk]
  have h2 : 0 < accounts.keys.length := List.length_pos_of_mem hk
  simp only [AList.keys, List.keys, List.length_map] at h1 h2
  simp only [eraseKey]
  omega

/-- The count returned by `erase` is 0 when the key is missing. -/
theorem eraseKey_count_of_not_mem {accounts : Registry} {accNo : Int} (h : accNo ∉ accounts) :
    (eraseKey accounts accNo).2 = 0 := by
  simp [eraseKey, erase_of_not_mem h]

/-- Whatever it prints, `deleteAccount` leaves the registry with the key erased. -/
theorem deleteAccount_fst (accounts : Registry) (accNo : Int) :
    (deleteAccount accounts accNo).1 = accounts.erase accNo := by
  simp only [deleteAccount]
  split_ifs <;> rfl

/-- Lookups after `createAccount`. -/
theorem findAccount_createAccount (accounts : Registry) (accNo : Int) (name : String)
    (initialBalance : Double) (k : Int) :
    findAccount (createAccount accounts accNo name initialBalance).1 k =
      if findAccount accounts accNo = none ∧ k = accNo then
        some (Account.mk3 accNo name initialBalance)
      else findAccount accounts k := by
  unfold createAccount
  cases h : findAccount accounts accNo with
  | some acc => simp
  | none =>
    by_cases e : k = accNo
    · subst e
      simp [findAccount, AList.lookup_insert]
    · simp [findAccount, e, AList.lookup_insert_ne e]

/-- Lookups after `depositMoney`. -/
theorem findAccount_depositMoney (accounts : Registry) (accNo : Int) (amount : Double) (k : Int) :
    findAccount (depositMoney accounts accNo amount).1 k =
      if k = accNo then (findAccount accounts accNo).map fun acc => (acc.deposit amount).1
      else findAccount accounts k := by
  unfold depositMoney
  cases h : findAccount accounts accNo with
  | none =>
    by_cases e : k = accNo
    · subst e
      simp [h]
    · simp [e]
  | some acc =>
    have hm : accNo ∈ accounts := AList.lookup_isSome.1 (by
      have h' : accounts.lookup accNo = some acc := h
      simp [h'])
    by_cases e : k = accNo
    · subst e
      simp [findAccount, lookup_replace_self hm]
    · simp [findAccount, e, lookup_replace_ne e]

/-- Lookups after `withdrawMoney`. -/
theorem findAccount_withdrawMoney (accounts : Registry) (accNo : Int) (amount : Double) (k : Int) :
    findAccount (withdrawMoney accounts accNo amount).1 k =
      if k = accNo then (findAccount accounts accNo).map fun acc => (acc.withdraw amount).1
      else findAccount accounts k := by
  unfold withdrawMoney
  cases h : findAccount accounts accNo with
  | none =>
    by_cases e : k = accNo
    · subst e
      simp [h]
    · simp [e]
  | some acc =>
    have hm : accNo ∈ accounts := AList.lookup_isSome.1 (by
      have h' : accounts.lookup accNo = some acc := h
      simp [h'])
    by_cases e : k = accNo
    · subst e
      simp [findAccount, lookup_replace_self hm]
    · simp [findAccount, e, lookup_replace_ne e]

/-- Lookups after `deleteAccount`. -/
theorem findAccount_deleteAccount (accounts : Registry) (accNo : Int) (k : Int) :
    findAccount (deleteAccount accounts accNo).1 k =
      if k = accNo then none else findAccount accounts k := by
  rw [deleteAccount_fst]
  by_cases e : k = accNo
  · subst e
    simp [findAccount, AList.lookup_erase]
  · simp [findAccount, e, AList.lookup_erase_ne e]

/-! ## Facts about the account record -/

/-- The operator `<=` excludes the operator `>`, also on the special values. -/
theorem Double.not_lt_of_le (a b : Double) (h : a ≤ b) : ¬ b < a := by
  cases a <;> cases b <;> simp only [LE.le, Double.le, LT.lt, Double.lt] at h ⊢
  all_goals first
    | exact not_lt.2 h
    | (rename_i s t; cases s <;> cases t <;> simp_all)
    | simp_all

/-- The difference of two finite doubles with a positive subtrahend is the exact
difference, rounded. -/
theorem Double.fin_sub_fin (x y : ℚ) (hy : 0 < y) :
    Double.fin x - Double.fin y = Double.round (x - y) := by
  show Double.add (Double.fin x) (Double.neg (Double.fin y)) = _
  simp only [Double.neg, hy.ne', if_false, Double.add, sub_eq_add_neg]

/-- The sum of two finite doubles is the exact sum, rounded. -/
theorem Double.fin_add_fin (x y : ℚ) :
    Double.fin x + Double.fin y = Double.round (x + y) := rfl

/-- The method `deposit` of a finite amount keeps a non-negative balance non-negative. -/
theorem deposit_balance_nonneg (a : Account) (amount : Double)
    (hfin : amount.isFinite = true) (h : Double.fin 0 ≤ a.balance) :
    Double.fin 0 ≤ (a.deposit amount).1.balance := by
  unfold Account.deposit
  split_ifs with hpos
  · show Double.fin 0 ≤ a.balance + amount
    cases hb : a.balance with
    | fin x =>
      rw [hb] at h
      have hx : (0 : ℚ) ≤ x := h
      cases amount with
      | fin y =>
        have hy : (0 : ℚ) < y := hpos
        rw [Double.fin_add_fin]
        exact round_nonneg _ (by linarith)
      | negZero => exact h
      | inf s => simp [Double.isFinite] at hfin
      | nan => simp [Double.isFinite] at hfin
    | negZero =>
      cases amount with
      | fin y =>
        have hy : (0 : ℚ) < y := hpos
        exact (show (0 : ℚ) ≤ y from hy.le)
      | negZero => exact absurd (show (0 : ℚ) < 0 from hpos) (lt_irrefl 0)
      | inf s => simp [Double.isFinite] at hfin
      | nan => simp [Double.isFinite] at hfin
    | inf s =>
      rw [hb] at h
      have hs : s = false := h
      subst hs
      cases amount with
      | fin y => exact (rfl : false = false)
      | negZero => exact (rfl : false = false)
      | inf t => simp [Double.isFinite] at hfin
      | nan => simp [Double.isFinite] at hfin
    | nan =>
      rw [hb] at h
      exact h.elim
  · exact h

/-- A finite amount that passes the guard of `withdraw` leaves a non-negative difference. -/
theorem sub_nonneg_of_guard (b amount : Double) (hfin : amount.isFinite = true)
    (hpos : amount > Double.fin 0) (hle : amount ≤ b) : Double.fin 0 ≤ b - amount := by
  cases amount with
  | fin y =>
    have hy : (0 : ℚ) < y := hpos
    cases b with
    | fin x =>
      have hxy : y ≤ x := hle
      rw [Double.fin_sub_fin x y hy]
      exact round_nonneg _ (by linarith)
    | negZero =>
      have hy0 : y ≤ 0 := hle
      exact absurd hy (not_lt.2 hy0)
    | inf s =>
      have hs : s = false := hle
      subst hs
      show Double.le (Double.fin 0) (Double.add (Double.inf false) (Double.neg (Double.fin y)))
      simp [Double.neg, hy.ne', Double.add, Double.le]
    | nan => exact hle.elim
  | negZero => exact absurd (show (0 : ℚ) < 0 from hpos) (lt_irrefl 0)
  | inf s => simp [Double.isFinite] at hfin
  | nan => simp [Double.isFinite] at hfin

/-- The method `withdraw` of a finite amount keeps a non-negative balance non-negative. -/
theorem withdraw_balance_nonneg (a : Account) (amount : Double)
    (hfin : amount.isFinite = true) (h : Double.fin 0 ≤ a.balance) :
    Double.fin 0 ≤ (a.withdraw amount).1.balance := by
  unfold Account.withdraw
  split_ifs with hok
  · exact sub_nonneg_of_guard a.balance amount hfin hok.1 hok.2
  · exact h

/-- One menu choice preserves "all balances are non-negative", provided a create is
given a non-negative initial balance. -/
theorem step_balance_nonneg (accounts : Registry) (op : Op)
    (hinv : ∀ k a, findAccount accounts k = some a → Double.fin 0 ≤ a.balance)
    (hop : ∀ n nm b, op = Op.create n nm b → 0 ≤ b) :
    ∀ k a, findAccount (step accounts op) k = some a → Double.fin 0 ≤ a.balance := by
  intro k a hk
  cases op with
  | create n nm b =>
    simp only [step, findAccount_createAccount] at hk
    split_ifs at hk with hc
    · cases hk
      exact (show (0 : ℚ) ≤ b from hop n nm b rfl)
    · exact hinv k a hk
  | deposit n amt =>
    simp only [step, findAccount_depositMoney] at hk
    split_ifs at hk with hc
    · cases hf : findAccount accounts n with
      | none => simp [hf] at hk
      | some acc =>
        simp only [hf, Option.map_some', Option.some.injEq] at hk
        subst hk
        exact deposit_balance_nonneg acc (Double.fin amt) rfl (hinv n acc hf)
    · exact hinv k a hk
  | withdraw n amt =>
    simp only [step, findAccount_withdrawMoney] at hk
    split_ifs at hk with hc
    · cases hf : findAccount accounts n with
      | none => simp [hf] at hk
      | some acc =>
        simp only [hf, Option.map_some', Option.some.injEq] at hk
        subst hk
        exact withdraw_balance_nonneg acc (Double.fin amt) rfl (hinv n acc hf)
    · exact hinv k a hk
  | close n =>
    simp only [step, findAccount_deleteAccount] at hk
    split_ifs at hk with hc
    exact hinv k a hk

/-- A run preserves "all balances are non-negative", provided every create in it is
given a non-negative initial balance. -/
theorem runFrom_balance_nonneg (ops : List Op) :
    ∀ accounts : Registry,
      (∀ k a, findAccount accounts k = some a → Double.fin 0 ≤ a.balance) →
      (∀ n nm b, Op.create n nm b ∈ ops → 0 ≤ b) →
      ∀ k a, findAccount (runFrom accounts ops) k = some a → Double.fin 0 ≤ a.balance := by
  induction ops with
  | nil => intro accounts hinv _ k a hk; exact hinv k a hk
  | cons op ops ih =>
    intro accounts hinv hops
    have hstep := step_balance_nonneg accounts op hinv (fun n nm b e =>
      hops n nm b (e ▸ List.mem_cons_self _ _))
    exact ih (step accounts op) hstep (fun n nm b hm => hops n nm b (List.mem_cons_of_mem _ hm))

/-- The method `deposit` only appends to the history. -/
theorem deposit_extends_history (a : Account) (amount : Double) :
    a.transactionHistory <+: (a.deposit amount).1.transactionHistory := by
  unfold Account.deposit
  split_ifs
  · exact List.prefix_append _ _
  · exact List.prefix_refl _

/-- The method `withdraw` only appends to the history. -/
theorem withdraw_extends_history (a : Account) (amount : Double) :
    a.transactionHistory <+: (a.withdraw amount).1.transactionHistory := by
  unfold Account.withdraw
  split_ifs
  · exact List.prefix_append _ _
  · exact List.prefix_refl _

/-- The method `deposit` changes neither the account number nor the name. -/
theorem deposit_keeps_identity (a : Account) (amount : Double) :
    (a.deposit amount).1.accountNumber = a.accountNumber ∧
      (a.deposit amount).1.name = a.name := by
  unfold Account.deposit
  split_ifs <;> exact ⟨rfl, rfl⟩

/-- The method `withdraw` changes neither the account number nor the name. -/
theorem withdraw_keeps_identity (a : Account) (amount : Double) :
    (a.withdraw amount).1.accountNumber = a.accountNumber ∧
      (a.withdraw amount).1.name = a.name := by
  unfold Account.withdraw
  split_ifs <;> exact ⟨rfl, rfl⟩

/-- One menu choice preserves "the record under key `k` has account number `k`". -/
theorem step_accountNumber (accounts : Registry) (op : Op)
    (hinv : ∀ k a, findAccount accounts k = some a → a.accountNumber = k) :
    ∀ k a, findAccount (step accounts op) k = some a → a.accountNumber = k := by
  intro k a hk
  cases op with
  | create n nm b =>
    simp only [step, findAccount_createAccount] at hk
    split_ifs at hk with hc
    · cases hk
      exact hc.2.symm
    · exact hinv k a hk
  | deposit n amt =>
    simp only [step, findAccount_depositMoney] at hk
    split_ifs at hk with hc
    · cases hf : findAccount accounts n with
      | none => simp [hf] at hk
      | some acc =>
        simp only [hf, Option.map_some', Option.some.injEq] at hk
        subst hk
        rw [(deposit_keeps_identity acc (Double.fin amt)).1, hc]
        exact hinv n acc hf
    · exact hinv k a hk
  | withdraw n amt =>
    simp only [step, findAccount_withdrawMoney] at hk
    split_ifs at hk with hc
    · cases hf : findAccount accounts n with
      | none => simp [hf] at hk
      | some acc =>
        simp only [hf, Option.map_some', Option.some.injEq] at hk
        subst hk
        rw [(withdraw_keeps_identity acc (Double.fin amt)).1, hc]
        exact hinv n acc hf
    · exact hinv k a hk
  | close n =>
    simp only [step, findAccount_deleteAccount] at hk
    split_ifs at hk with hc
    exact hinv k a hk

/-- A run preserves "the record under key `k` has account number `k`". -/
theorem runFrom_accountNumber (ops : List Op) :
    ∀ accounts : Registry,
      (∀ k a, findAccount accounts k = some a → a.accountNumber = k) →
      ∀ k a, findAccount (runFrom accounts ops) k = some a → a.accountNumber = k := by
  induction ops with
  | nil => intro accounts hinv k a hk; exact hinv k a hk
  | cons op ops ih =>
    intro accounts hinv
    exact ih (step accounts op) (step_accountNumber accounts op hinv)

/-- In a registry reached from the empty one, the record under `k` has number `k`. -/
theorem run_accountNumber (ops : List Op) :
    ∀ k a, findAccount (run ops) k = some a → a.accountNumber = k :=
  runFrom_accountNumber ops Registry.empty
    (fun k a h => by simp [findAccount, Registry.empty] at h)

/-- A menu choice other than closing `k` keeps the account under `k` and only
appends to its history. -/
theorem step_extends_history (accounts : Registry) (op : Op) (k : Int) (a : Account)
    (hk : findAccount accounts k = some a) (hop : op ≠ Op.close k) :
    ∃ a', findAccount (step accounts op) k = some a' ∧
      a.transactionHistory <+: a'.transactionHistory := by
  cases op with
  | create n nm b =>
    refine ⟨a, ?_, List.prefix_refl _⟩
    simp only [step, findAccount_createAccount]
    by_cases e : k = n
    · subst e
      simp [hk]
    · simp [e, hk]
  | deposit n amt =>
    simp only [step, findAccount_depositMoney]
    by_cases e : k = n
    · subst e
      exact ⟨(a.deposit (Double.fin amt)).1, by simp [hk], deposit_extends_history a (Double.fin amt)⟩
    · exact ⟨a, by simp [e, hk], List.prefix_refl _⟩
  | withdraw n amt =>
    simp only [step, findAccount_withdrawMoney]
    by_cases e : k = n
    · subst e
      exact ⟨(a.withdraw (Double.fin amt)).1, by simp [hk], withdraw_extends_history a (Double.fin amt)⟩
    · exact ⟨a, by simp [e, hk], List.prefix_refl _⟩
  | close n =>
    have e : k ≠ n := fun e => hop (by rw [e])
    exact ⟨a, by simp [step, findAccount_deleteAccount, e, hk], List.prefix_refl _⟩

/-- Frame of `depositMoney`. -/
theorem depositMoney_frame (accounts : Registry) (accNo : Int) (amount : Double) :
    (((depositMoney accounts accNo amount).1.keys = accounts.keys ∧
        ∀ k, k ∈ (depositMoney accounts accNo amount).1 ↔ k ∈ accounts) ∧
      (∀ k, k ≠ accNo →
        findAccount (depositMoney accounts accNo amount).1 k = findAccount accounts k) ∧
      (∀ a, findAccount accounts accNo = some a →
        ∃ a', findAccount (depositMoney accounts accNo amount).1 accNo = some a' ∧
          a'.name = a.name ∧ a'.accountNumber = a.accountNumber) ∧
      (accNo ∉ accounts →
        (depositMoney accounts accNo amount).2 = "Enter Account Number: Account not found.\n" ∧
        (depositMoney accounts accNo amount).1 = accounts)) := by
  have hkeys : (depositMoney accounts accNo amount).1.keys = accounts.keys := by
    unfold depositMoney
    cases findAccount accounts accNo with
    | none => rfl
    | some acc => exact AList.keys_replace _ _ _
  refine ⟨⟨hkeys, fun k => ?_⟩, ?_, ?_, ?_⟩
  · rw [AList.mem_keys, AList.mem_keys, hkeys]
  · intro k hne
    rw [findAccount_depositMoney, if_neg hne]
  · intro a ha
    refine ⟨(a.deposit amount).1, ?_, (deposit_keeps_identity a amount).2,
      (deposit_keeps_identity a amount).1⟩
    rw [findAccount_depositMoney, if_pos rfl, ha]
    rfl
  · intro hmiss
    have hnone : findAccount accounts accNo = none := AList.lookup_eq_none.2 hmiss
    unfold depositMoney
    rw [hnone]
    exact ⟨rfl, rfl⟩

/-- Frame of `withdrawMoney`. -/
theorem withdrawMoney_frame (accounts : Registry) (accNo : Int) (amount : Double) :
    (((withdrawMoney accounts accNo amount).1.keys = accounts.keys ∧
        ∀ k, k ∈ (withdrawMoney accounts accNo amount).1 ↔ k ∈ accounts) ∧
      (∀ k, k ≠ accNo →
        findAccount (withdrawMoney accounts accNo amount).1 k = findAccount accounts k) ∧
      (∀ a, findAccount accounts accNo = some a →
        ∃ a', findAccount (withdrawMoney accounts accNo amount).1 accNo = some a' ∧
          a'.name = a.name ∧ a'.accountNumber = a.accountNumber) ∧
      (accNo ∉ accounts →
        (withdrawMoney accounts accNo amount).2 = "Enter Account Number: Account not found.\n" ∧
        (withdrawMoney accounts accNo amount).1 = accounts)) := by
  have hkeys : (withdrawMoney accounts accNo amount).1.keys = accounts.keys := by
    unfold withdrawMoney
    cases findAccount accounts accNo with
    | none => rfl
    | some acc => exact AList.keys_replace _ _ _
  refine ⟨⟨hkeys, fun k => ?_⟩, ?_, ?_, ?_⟩
  · rw [AList.mem_keys, AList.mem_keys, hkeys]
  · intro k hne
    rw [findAccount_withdrawMoney, if_neg hne]
  · intro a ha
    refine ⟨(a.withdraw amount).1, ?_, (withdraw_keeps_identity a amount).2,
      (withdraw_keeps_identity a amount).1⟩
    rw [findAccount_withdrawMoney, if_pos rfl, ha]
    rfl
  · intro hmiss
    have hnone : findAccount accounts accNo = none := AList.lookup_eq_none.2 hmiss
    unfold withdrawMoney
    rw [hnone]
    exact ⟨rfl, rfl⟩


/-! ## The claims -/

/-- C1, as stated, fails: creating an account with the initial balance `-5` stores a
record whose balance is negative, so not every reachable balance is `≥ 0`. -/
theorem balance_nonneg_counterexample :
    ¬ ∀ (ops : List Op) (k : Int) (a : Account),
        findAccount (run ops) k = some a → Double.fin 0 ≤ a.balance := by
  intro h
  have h5 := h [Op.create 1 "A" (-5)] 1 (Account.mk3 1 "A" (Double.fin (-5))) (by decide!)
  have h6 : (0 : ℚ) ≤ -5 := h5
  norm_num at h6

/-- C1, amended: in every registry reached from the empty registry by create, deposit,
withdraw and close operations in which every create was passed an initial balance
`≥ 0`, the balance of every stored account is `≥ 0`. -/
theorem balance_nonneg_of_nonneg_initial (ops : List Op)
    (hinit : ∀ n nm b, Op.create n nm b ∈ ops → 0 ≤ b) (k : Int) (a : Account)
    (hk : findAccount (run ops) k = some a) : Double.fin 0 ≤ a.balance :=
  runFrom_balance_nonneg ops Registry.empty
    (fun k a h => by simp [findAccount, Registry.empty] at h) hinit k a hk

/-- The amended C1 at a run that ends with a rejected withdrawal from balance 0. -/
theorem balance_nonneg_of_nonneg_initial_witness :
    findAccount (run [Op.create 7 "Ravi" 10, Op.deposit 7 5, Op.withdraw 7 15, Op.withdraw 7 1]) 7
        = some ⟨7, "Ravi", Double.fin 0, ["Account created with balance Rs. 10.000000",
            "Deposited Rs. 5.000000", "Withdrawn Rs. 15.000000"]⟩ ∧
      Double.fin 0 ≤ Double.fin 0 :=
  ⟨by decide!,
   balance_nonneg_of_nonneg_initial
     [Op.create 7 "Ravi" 10, Op.deposit 7 5, Op.withdraw 7 15, Op.withdraw 7 1]
     (by
       intro n nm b hm
       simp only [List.mem_cons, Op.create.injEq, List.mem_singleton, reduceCtorEq,
         or_false, List.not_mem_nil] at hm
       obtain ⟨_, _, rfl⟩ := hm
       norm_num)
     7 ⟨7, "Ravi", Double.fin 0, ["Account created with balance Rs. 10.000000",
            "Deposited Rs. 5.000000", "Withdrawn Rs. 15.000000"]⟩ (by decide!)⟩

/-- C2, as stated, fails: from the balance `2 ^ 53` a withdrawal of `0.5` passes the
guard and reports success, and the balance it leaves is `2 ^ 53`, not
`2 ^ 53 - 0.5`; the same happens in the run that creates the account with
`2 ^ 53` and withdraws `0.5`.  Both operands are doubles. -/
theorem withdraw_exact_counterexample :
    (Double.fin (1 / 2) > Double.fin 0 ∧
      Double.fin (1 / 2) ≤ (Account.mk3 1 "A" (Double.fin 9007199254740992)).balance) ∧
    ((Account.mk3 1 "A" (Double.fin 9007199254740992)).withdraw (Double.fin (1 / 2))).2
      = "Amount withdrawn successfully.\n" ∧
    ((Account.mk3 1 "A" (Double.fin 9007199254740992)).withdraw (Double.fin (1 / 2))).1.balance
      = Double.fin 9007199254740992 ∧
    Double.fin 9007199254740992 ≠ Double.fin (9007199254740992 - 1 / 2) ∧
    (findAccount (run [Op.create 1 "A" 9007199254740992, Op.withdraw 1 (1 / 2)]) 1).map
        (fun a => a.balance) = some (Double.fin 9007199254740992) ∧
    ¬ ∀ (a : Account) (b amount : ℚ), Representable b → Representable amount →
        a.balance = Double.fin b → 0 < amount → amount ≤ b →
        (a.withdraw (Double.fin amount)).1.balance = Double.fin (b - amount) := by
  refine ⟨by decide!, by decide!, by decide!, by decide!, by decide!, fun h => ?_⟩
  have hb : Representable 9007199254740992 :=
    ⟨1, 53, by norm_num, by norm_num, by norm_num, by norm_num⟩
  have ha : Representable (1 / 2) :=
    ⟨1, -1, by norm_num, by norm_num, by norm_num, by norm_num⟩
  have h1 := h (Account.mk3 1 "A" (Double.fin 9007199254740992)) 9007199254740992 (1 / 2)
    hb ha rfl (by norm_num) (by norm_num)
  revert h1
  decide!

/-- C2, amended: `withdraw` with `amount > 0` and `amount ≤ balance` reports success,
appends exactly one entry to the end of the history and leaves the balance
`balance - amount` in double arithmetic, which is `≥ 0` whenever the amount is
finite.  For finite operands that balance is the exact difference rounded to double
precision: it is the exact difference whenever that is a double, and whenever it is
finite it is a double at least as close to the exact difference as any other.  In
every other case, in particular with `amount ≤ 0` or `amount > balance`, it reports
"Invalid or insufficient amount." and leaves balance and history unchanged. -/
theorem withdraw_contract (a : Account) (amount : Double) :
    (amount > Double.fin 0 ∧ amount ≤ a.balance →
        (a.withdraw amount).2 = "Amount withdrawn successfully.\n" ∧
        (a.withdraw amount).1.balance = a.balance - amount ∧
        (a.withdraw amount).1.transactionHistory
          = a.transactionHistory ++ ["Withdrawn Rs. " ++ to_string amount] ∧
        (amount.isFinite = true → Double.fin 0 ≤ (a.withdraw amount).1.balance) ∧
        (∀ x y : ℚ, a.balance = Double.fin x → amount = Double.fin y →
          (a.withdraw amount).1.balance = Double.round (x - y) ∧
          (Representable (x - y) → (a.withdraw amount).1.balance = Double.fin (x - y)) ∧
          (∀ r : ℚ, (a.withdraw amount).1.balance = Double.fin r →
            Representable r ∧ ∀ d : ℚ, Representable d → |r - (x - y)| ≤ |d - (x - y)|))) ∧
    (¬ (amount > Double.fin 0 ∧ amount ≤ a.balance) →
        (a.withdraw amount).2 = "Invalid or insufficient amount.\n" ∧
        (a.withdraw amount).1.balance = a.balance ∧
        (a.withdraw amount).1.transactionHistory = a.transactionHistory) ∧
    (amount ≤ Double.fin 0 ∨ a.balance < amount →
        (a.withdraw amount).2 = "Invalid or insufficient amount.\n" ∧
        (a.withdraw amount).1.balance = a.balance ∧
        (a.withdraw amount).1.transactionHistory = a.transactionHistory) := by
  have hrej : ¬ (amount > Double.fin 0 ∧ amount ≤ a.balance) →
      (a.withdraw amount).2 = "Invalid or insufficient amount.\n" ∧
      (a.withdraw amount).1.balance = a.balance ∧
      (a.withdraw amount).1.transactionHistory = a.transactionHistory := by
    intro hg
    unfold Account.withdraw
    rw [if_neg hg]
    exact ⟨rfl, rfl, rfl⟩
  refine ⟨fun hg => ?_, hrej, fun h => hrej ?_⟩
  · have hbal : (a.withdraw amount).1.balance = a.balance - amount := by
      unfold Account.withdraw
      rw [if_pos hg]
    refine ⟨?_, hbal, ?_, ?_, ?_⟩
    · unfold Account.withdraw
      rw [if_pos hg]
    · unfold Account.withdraw
      rw [if_pos hg]
    · intro hfin
      rw [hbal]
      exact sub_nonneg_of_guard a.balance amount hfin hg.1 hg.2
    · intro x y hx hy
      have hy0 : (0 : ℚ) < y := by
        have := hg.1
        rw [hy] at this
        exact this
      have hround : (a.withdraw amount).1.balance = Double.round (x - y) := by
        rw [hbal, hx, hy, Double.fin_sub_fin x y hy0]
      refine ⟨hround, fun hrep => by rw [hround, round_of_representable _ hrep], ?_⟩
      intro r hr
      rw [hround] at hr
      exact ⟨round_representable _ r hr, round_nearest _ r hr⟩
  · rintro ⟨h1, h2⟩
    rcases h with h | h
    · exact Double.not_lt_of_le _ _ h h1
    · exact Double.not_lt_of_le _ _ h2 h

/-- The amended C2 at an accepted withdrawal of 30 and a rejected one of 130 from
balance 100. -/
theorem withdraw_contract_witness :
    ((Account.mk3 1 "A" (Double.fin 100)).withdraw (Double.fin 30)).1.balance
      = Double.fin (100 - 30) ∧
    (Double.fin 0 ≤ ((Account.mk3 1 "A" (Double.fin 100)).withdraw (Double.fin 30)).1.balance) ∧
    ((Account.mk3 1 "A" (Double.fin 100)).withdraw (Double.fin 130)).1.balance
      = (Account.mk3 1 "A" (Double.fin 100)).balance ∧
    ((Account.mk3 1 "A" (Double.fin 100)).withdraw (Double.fin (-4))).1.balance
      = (Account.mk3 1 "A" (Double.fin 100)).balance :=
  have hg : Double.fin 30 > Double.fin 0 ∧ Double.fin 30 ≤ (Account.mk3 1 "A" (Double.fin 100)).balance :=
    by decide!
  have hrep : Representable (100 - 30) :=
    ⟨70, 0, by norm_num, by norm_num, by norm_num, by norm_num⟩
  ⟨(((withdraw_contract (Account.mk3 1 "A" (Double.fin 100)) (Double.fin 30)).1 hg).2.2.2.2
      100 30 rfl rfl).2.1 hrep,
    ((withdraw_contract (Account.mk3 1 "A" (Double.fin 100)) (Double.fin 30)).1 hg).2.2.2.1 rfl,
    ((withdraw_contract (Account.mk3 1 "A" (Double.fin 100)) (Double.fin 130)).2.1
      (by decide!)).2.1,
    ((withdraw_contract (Account.mk3 1 "A" (Double.fin 100)) (Double.fin (-4))).2.2
      (Or.inl (by decide!))).2.1⟩

/-- C3, as stated, fails: into the balance `10 ^ 16` a deposit of `1` reports success,
and the balance it leaves is `10 ^ 16`, not `10 ^ 16 + 1`; the same happens in the
run that creates the account with `10 ^ 16` and deposits `1`.  Both operands are
doubles. -/
theorem deposit_exact_counterexample :
    Double.fin 1 > Double.fin 0 ∧
    ((Account.mk3 1 "A" (Double.fin 10000000000000000)).deposit (Double.fin 1)).2
      = "Amount deposited successfully.\n" ∧
    ((Account.mk3 1 "A" (Double.fin 10000000000000000)).deposit (Double.fin 1)).1.balance
      = Double.fin 10000000000000000 ∧
    Double.fin 10000000000000000 ≠ Double.fin (10000000000000000 + 1) ∧
    (findAccount (run [Op.create 1 "A" 10000000000000000, Op.deposit 1 1]) 1).map
        (fun a => a.balance) = some (Double.fin 10000000000000000) ∧
    ¬ ∀ (a : Account) (b amount : ℚ), Representable b → Representable amount →
        a.balance = Double.fin b → 0 < amount →
        (a.deposit (Double.fin amount)).1.balance = Double.fin (b + amount) := by
  refine ⟨by decide!, by decide!, by decide!, by decide!, by decide!, fun h => ?_⟩
  have hb : Representable 10000000000000000 :=
    ⟨152587890625, 16, by norm_num, by norm_num, by norm_num, by norm_num⟩
  have ha : Representable 1 := ⟨1, 0, by norm_num, by norm_num, by norm_num, by norm_num⟩
  have h1 := h (Account.mk3 1 "A" (Double.fin 10000000000000000)) 10000000000000000 1
    hb ha rfl (by norm_num)
  revert h1
  decide!

/-- C3, amended: `deposit` with an amount that is not `> 0`, in particular with
`amount ≤ 0`, reports "Invalid amount." and leaves balance and history unchanged;
with `amount > 0` it reports success, appends exactly one entry to the end of the
history and leaves the balance `balance + amount` in double arithmetic.  For finite
operands that balance is the exact sum rounded to double precision: it is the exact
sum whenever that is a double, and whenever it is finite it is a double at least as
close to the exact sum as any other. -/
theorem deposit_contract (a : Account) (amount : Double) :
    (amount ≤ Double.fin 0 →
        (a.deposit amount).2 = "Invalid amount.\n" ∧
        (a.deposit amount).1.balance = a.balance ∧
        (a.deposit amount).1.transactionHistory = a.transactionHistory) ∧
    (¬ amount > Double.fin 0 →
        (a.deposit amount).2 = "Invalid amount.\n" ∧
        (a.deposit amount).1.balance = a.balance ∧
        (a.deposit amount).1.transactionHistory = a.transactionHistory) ∧
    (amount > Double.fin 0 →
        (a.deposit amount).2 = "Amount deposited successfully.\n" ∧
        (a.deposit amount).1.balance = a.balance + amount ∧
        (a.deposit amount).1.transactionHistory
          = a.transactionHistory ++ ["Deposited Rs. " ++ to_string amount] ∧
        (∀ x y : ℚ, a.balance = Double.fin x → amount = Double.fin y →
          (a.deposit amount).1.balance = Double.round (x + y) ∧
          (Representable (x + y) → (a.deposit amount).1.balance = Double.fin (x + y)) ∧
          (∀ r : ℚ, (a.deposit amount).1.balance = Double.fin r →
            Representable r ∧ ∀ d : ℚ, Representable d → |r - (x + y)| ≤ |d - (x + y)|))) := by
  have hrej : ¬ amount > Double.fin 0 →
      (a.deposit amount).2 = "Invalid amount.\n" ∧
      (a.deposit amount).1.balance = a.balance ∧
      (a.deposit amount).1.transactionHistory = a.transactionHistory := by
    intro hg
    unfold Account.deposit
    rw [if_neg hg]
    exact ⟨rfl, rfl, rfl⟩
  refine ⟨fun h => hrej (Double.not_lt_of_le _ _ h), hrej, fun hg => ?_⟩
  have hbal : (a.deposit amount).1.balance = a.balance + amount := by
    unfold Account.deposit
    rw [if_pos hg]
  refine ⟨?_, hbal, ?_, ?_⟩
  · unfold Account.deposit
    rw [if_pos hg]
  · unfold Account.deposit
    rw [if_pos hg]
  · intro x y hx hy
    have hround : (a.deposit amount).1.balance = Double.round (x + y) := by
      rw [hbal, hx, hy, Double.fin_add_fin]
    refine ⟨hround, fun hrep => by rw [hround, round_of_representable _ hrep], ?_⟩
    intro r hr
    rw [hround] at hr
    exact ⟨round_representable _ r hr, round_nearest _ r hr⟩

/-- The amended C3 at a rejected deposit of -2 and an accepted one of 25. -/
theorem deposit_contract_witness :
    ((Account.mk3 1 "A" (Double.fin 100)).deposit (Double.fin (-2))).1.balance
      = (Account.mk3 1 "A" (Double.fin 100)).balance ∧
    ((Account.mk3 1 "A" (Double.fin 100)).deposit (Double.nan)).1.balance
      = (Account.mk3 1 "A" (Double.fin 100)).balance ∧
    ((Account.mk3 1 "A" (Double.fin 100)).deposit (Double.fin 25)).1.balance
      = Double.fin (100 + 25) :=
  have hrep : Representable (100 + 25) :=
    ⟨125, 0, by norm_num, by norm_num, by norm_num, by norm_num⟩
  ⟨((deposit_contract (Account.mk3 1 "A" (Double.fin 100)) (Double.fin (-2))).1
      (by decide!)).2.1,
    ((deposit_contract (Account.mk3 1 "A" (Double.fin 100)) Double.nan).2.1 (by decide!)).2.1,
    ((((deposit_contract (Account.mk3 1 "A" (Double.fin 100)) (Double.fin 25)).2.2
      (by decide!)).2.2.2) 100 25 rfl rfl).2.1 hrep⟩

/-- C4: when `accNo` is not yet a key, `createAccount` followed by `findAccount accNo`
returns a record with that account number, name and balance and a history of
length exactly 1. -/
theorem create_then_find (accounts : Registry) (accNo : Int) (name : String) (balance : Double)
    (hfresh : accNo ∉ accounts) :
    ∃ acc, findAccount (createAccount accounts accNo name balance).1 accNo = some acc ∧
      acc.accountNumber = accNo ∧ acc.name = name ∧ acc.balance = balance ∧
      acc.transactionHistory.length = 1 := by
  have hnone : findAccount accounts accNo = none := AList.lookup_eq_none.2 hfresh
  refine ⟨Account.mk3 accNo name balance, ?_, rfl, rfl, rfl, rfl⟩
  rw [findAccount_createAccount, if_pos ⟨hnone, rfl⟩]

/-- C4 at the empty registry. -/
theorem create_then_find_witness :
    (100 : Int) ∉ Registry.empty ∧
    ∃ acc, findAccount (createAccount Registry.empty 100 "Asha" (Double.fin 500)).1 100 = some acc ∧
      acc.accountNumber = 100 ∧ acc.name = "Asha" ∧ acc.balance = Double.fin 500 ∧
      acc.transactionHistory.length = 1 :=
  ⟨AList.not_mem_empty 100,
    create_then_find Registry.empty 100 "Asha" (Double.fin 500) (AList.not_mem_empty 100)⟩

/-- C5: `createAccount` on an account number already in the registry reports
"Account already exists!" and returns the registry unchanged; hence creating the
same number twice gives the registry left by the first call alone. -/
theorem create_duplicate (accounts : Registry) (accNo : Int) (name name' : String)
    (balance balance' : Double) :
    (accNo ∈ accounts →
        createAccount accounts accNo name balance
          = (accounts, "Enter Account Number: Account already exists!\n")) ∧
    createAccount (createAccount accounts accNo name balance).1 accNo name' balance'
      = ((createAccount accounts accNo name balance).1,
          "Enter Account Number: Account already exists!\n") := by
  have key : ∀ (r : Registry) (nm : String) (b : Double), accNo ∈ r →
      createAccount r accNo nm b = (r, "Enter Account Number: Account already exists!\n") := by
    intro r nm b hm
    obtain ⟨acc, hacc⟩ := Option.isSome_iff_exists.1 (AList.lookup_isSome.2 hm)
    have hf : findAccount r accNo = some acc := hacc
    simp only [createAccount, hf]
    rfl
  refine ⟨key accounts name balance, key _ name' balance' ?_⟩
  apply AList.lookup_isSome.1
  have hl := findAccount_createAccount accounts accNo name balance accNo
  unfold findAccount at hl
  rw [hl]
  cases hf : accounts.lookup accNo with
  | none => simp
  | some acc => simp

/-- C5 at a registry that already holds account 100. -/
theorem create_duplicate_witness :
    (100 : Int) ∈ (createAccount Registry.empty 100 "Asha" (Double.fin 500)).1 ∧
    createAccount (createAccount Registry.empty 100 "Asha" (Double.fin 500)).1 100 "Bela" (Double.fin (-3))
      = ((createAccount Registry.empty 100 "Asha" (Double.fin 500)).1,
          "Enter Account Number: Account already exists!\n") :=
  have hm : (100 : Int) ∈ (createAccount Registry.empty 100 "Asha" (Double.fin 500)).1 := by decide!
  ⟨hm, (create_duplicate (createAccount Registry.empty 100 "Asha" (Double.fin 500)).1 100 "Bela" "Bela"
    (Double.fin (-3)) (Double.fin (-3))).1 hm⟩

/-- C6: `deleteAccount` on a present account number reports success, whatever the
balance of the account, and `findAccount` then reports the number absent; on a
missing number it reports "Account not found." and the registry is unchanged. -/
theorem delete_contract (accounts : Registry) (accNo : Int) :
    (accNo ∈ accounts →
        (deleteAccount accounts accNo).2
          = "Enter Account Number to close: Account closed successfully.\n" ∧
        findAccount (deleteAccount accounts accNo).1 accNo = none) ∧
    (accNo ∉ accounts →
        (deleteAccount accounts accNo).2
          = "Enter Account Number to close: Account not found.\n" ∧
        (deleteAccount accounts accNo).1 = accounts) := by
  constructor
  · intro h
    refine ⟨?_, ?_⟩
    · have hc : (eraseKey accounts accNo).2 ≠ 0 := by
        rw [eraseKey_count_of_mem h]
        exact one_ne_zero
      simp only [deleteAccount]
      rw [if_pos hc]
      rfl
    · rw [findAccount_deleteAccount, if_pos rfl]
  · intro h
    refine ⟨?_, ?_⟩
    · have hc : ¬ (eraseKey accounts accNo).2 ≠ 0 := by
        rw [eraseKey_count_of_not_mem h]
        exact fun hne => hne rfl
      simp only [deleteAccount]
      rw [if_neg hc]
      rfl
    · rw [deleteAccount_fst]
      exact erase_of_not_mem h

/-- C6 at a registry holding account 100: closing 100, and closing the missing 5. -/
theorem delete_contract_witness :
    ((100 : Int) ∈ (createAccount Registry.empty 100 "Asha" (Double.fin 500)).1 ∧
      findAccount (deleteAccount (createAccount Registry.empty 100 "Asha" (Double.fin 500)).1 100).1 100
        = none) ∧
    ((5 : Int) ∉ (createAccount Registry.empty 100 "Asha" (Double.fin 500)).1 ∧
      (deleteAccount (createAccount Registry.empty 100 "Asha" (Double.fin 500)).1 5).1
        = (createAccount Registry.empty 100 "Asha" (Double.fin 500)).1) :=
  have h1 : (100 : Int) ∈ (createAccount Registry.empty 100 "Asha" (Double.fin 500)).1 := by decide!
  have h2 : (5 : Int) ∉ (createAccount Registry.empty 100 "Asha" (Double.fin 500)).1 := by decide!
  ⟨⟨h1, ((delete_contract (createAccount Registry.empty 100 "Asha" (Double.fin 500)).1 100).1 h1).2⟩,
    ⟨h2, ((delete_contract (createAccount Registry.empty 100 "Asha" (Double.fin 500)).1 5).2 h2).2⟩⟩

/-- C7: the run Create(100, "Asha", 500); Deposit(100, 200); Withdraw(100, 1000);
Withdraw(100, 700); Delete(100) from the empty registry gives in turn balance 500
with history exactly ["Account created with balance Rs. 500.000000"], balance 700,
a rejected withdrawal with balance still 700, balance 0, and a successful deletion
after which `findAccount 100` reports absent. -/
theorem end_to_end_scenario :
    (findAccount (createAccount Registry.empty 100 "Asha" (Double.fin 500)).1 100).map
        (fun a => (a.balance, a.transactionHistory))
      = some (Double.fin 500, ["Account created with balance Rs. 500.000000"]) ∧
    (findAccount (run [Op.create 100 "Asha" 500, Op.deposit 100 200]) 100).map
        (fun a => a.balance) = some (Double.fin 700) ∧
    (withdrawMoney (run [Op.create 100 "Asha" 500, Op.deposit 100 200]) 100
        (Double.fin 1000)).2
      = "Enter Account Number: Enter amount to withdraw: Invalid or insufficient amount.\n" ∧
    (findAccount
        (run [Op.create 100 "Asha" 500, Op.deposit 100 200, Op.withdraw 100 1000]) 100).map
        (fun a => a.balance) = some (Double.fin 700) ∧
    (withdrawMoney
        (run [Op.create 100 "Asha" 500, Op.deposit 100 200, Op.withdraw 100 1000]) 100
        (Double.fin 700)).2
      = "Enter Account Number: Enter amount to withdraw: Amount withdrawn successfully.\n" ∧
    (findAccount
        (run [Op.create 100 "Asha" 500, Op.deposit 100 200, Op.withdraw 100 1000,
          Op.withdraw 100 700]) 100).map (fun a => a.balance) = some (Double.fin 0) ∧
    (deleteAccount
        (run [Op.create 100 "Asha" 500, Op.deposit 100 200, Op.withdraw 100 1000,
          Op.withdraw 100 700]) 100).2
      = "Enter Account Number to close: Account closed successfully.\n" ∧
    findAccount
        (run [Op.create 100 "Asha" 500, Op.deposit 100 200, Op.withdraw 100 1000,
          Op.withdraw 100 700, Op.close 100]) 100 = none := by
  decide!

/-- C8: the transaction history is append-only.  For every record and amount the
history before `deposit` or `withdraw` is a prefix of the history after it; and for
every registry operation other than closing account `k`, an account stored under
`k` before the operation is still stored afterwards and its old history is a
prefix of its new one. -/
theorem history_append_only :
    (∀ (a : Account) (amount : Double),
        a.transactionHistory <+: (a.deposit amount).1.transactionHistory ∧
        a.transactionHistory <+: (a.withdraw amount).1.transactionHistory) ∧
    (∀ (accounts : Registry) (op : Op) (k : Int) (a : Account),
        findAccount accounts k = some a → op ≠ Op.close k →
        ∃ a', findAccount (step accounts op) k = some a' ∧
          a.transactionHistory <+: a'.transactionHistory) :=
  ⟨fun a amount => ⟨deposit_extends_history a amount, withdraw_extends_history a amount⟩,
    step_extends_history⟩

/-- C8 at a deposit into a freshly created account. -/
theorem history_append_only_witness :
    findAccount (run [Op.create 100 "Asha" 500]) 100 = some (Account.mk3 100 "Asha" (Double.fin 500)) ∧
    Op.deposit 100 200 ≠ Op.close 100 ∧
    ∃ a', findAccount (step (run [Op.create 100 "Asha" 500]) (Op.deposit 100 200)) 100
        = some a' ∧
      (Account.mk3 100 "Asha" (Double.fin 500)).transactionHistory <+: a'.transactionHistory :=
  have h1 : findAccount (run [Op.create 100 "Asha" 500]) 100
      = some (Account.mk3 100 "Asha" (Double.fin 500)) := by decide!
  have h2 : Op.deposit 100 200 ≠ Op.close 100 := by simp
  ⟨h1, h2, history_append_only.2 (run [Op.create 100 "Asha" 500]) (Op.deposit 100 200) 100
    (Account.mk3 100 "Asha" (Double.fin 500)) h1 h2⟩

/-- C9: in every registry reached from the empty registry by create, deposit,
withdraw and close operations, the record stored under key `k` has account number
`k`; hence records under distinct keys have distinct account numbers, and an
operation that leaves an account in the registry leaves its account number as it
was. -/
theorem accountNumber_is_key (ops : List Op) :
    (∀ k a, findAccount (run ops) k = some a → a.accountNumber = k) ∧
    (∀ k₁ k₂ a₁ a₂, k₁ ≠ k₂ → findAccount (run ops) k₁ = some a₁ →
        findAccount (run ops) k₂ = some a₂ → a₁.accountNumber ≠ a₂.accountNumber) ∧
    (∀ op k a a', findAccount (run ops) k = some a →
        findAccount (step (run ops) op) k = some a' →
        a'.accountNumber = a.accountNumber) := by
  have hinv := run_accountNumber ops
  refine ⟨hinv, ?_, ?_⟩
  · intro k₁ k₂ a₁ a₂ hne h₁ h₂
    rw [hinv k₁ a₁ h₁, hinv k₂ a₂ h₂]
    exact hne
  · intro op k a a' h h'
    rw [step_accountNumber (run ops) op hinv k a' h', hinv k a h]

/-- C9 at a run creating two accounts. -/
theorem accountNumber_is_key_witness :
    findAccount (run [Op.create 100 "Asha" 500, Op.create 7 "Ravi" 10, Op.deposit 7 5]) 7
        = some ⟨7, "Ravi", Double.fin 15, ["Account created with balance Rs. 10.000000",
            "Deposited Rs. 5.000000"]⟩ ∧
      (7 : Int) = 7 :=
  ⟨by decide!,
    (accountNumber_is_key [Op.create 100 "Asha" 500, Op.create 7 "Ravi" 10, Op.deposit 7 5]).1
      7 ⟨7, "Ravi", Double.fin 15, ["Account created with balance Rs. 10.000000",
            "Deposited Rs. 5.000000"]⟩ (by decide!)⟩

/-- C10: the deposit and withdraw handlers change at most the balance and history
of the record under `accNo`.  The registry keeps the same keys; every record under
another key is unchanged; the record under `accNo` keeps its name and account
number; and when `accNo` is missing, "Account not found." is reported and the
registry is unchanged. -/
theorem deposit_withdraw_frame (accounts : Registry) (accNo : Int) (amount : Double) :
    (((depositMoney accounts accNo amount).1.keys = accounts.keys ∧
        ∀ k, k ∈ (depositMoney accounts accNo amount).1 ↔ k ∈ accounts) ∧
      (∀ k, k ≠ accNo →
        findAccount (depositMoney accounts accNo amount).1 k = findAccount accounts k) ∧
      (∀ a, findAccount accounts accNo = some a →
        ∃ a', findAccount (depositMoney accounts accNo amount).1 accNo = some a' ∧
          a'.name = a.name ∧ a'.accountNumber = a.accountNumber) ∧
      (accNo ∉ accounts →
        (depositMoney accounts accNo amount).2 = "Enter Account Number: Account not found.\n" ∧
        (depositMoney accounts accNo amount).1 = accounts)) ∧
    (((withdrawMoney accounts accNo amount).1.keys = accounts.keys ∧
        ∀ k, k ∈ (withdrawMoney accounts accNo amount).1 ↔ k ∈ accounts) ∧
      (∀ k, k ≠ accNo →
        findAccount (withdrawMoney accounts accNo amount).1 k = findAccount accounts k) ∧
      (∀ a, findAccount accounts accNo = some a →
        ∃ a', findAccount (withdrawMoney accounts accNo amount).1 accNo = some a' ∧
          a'.name = a.name ∧ a'.accountNumber = a.accountNumber) ∧
      (accNo ∉ accounts →
        (withdrawMoney accounts accNo amount).2 = "Enter Account Number: Account not found.\n" ∧
        (withdrawMoney accounts accNo amount).1 = accounts)) :=
  ⟨depositMoney_frame accounts accNo amount, withdrawMoney_frame accounts accNo amount⟩

/-- C10 at a registry of two accounts: a deposit into 100 seen from 7, and a
withdrawal from the missing 5. -/
theorem deposit_withdraw_frame_witness :
    ((7 : Int) ≠ 100 ∧
      findAccount (depositMoney (run [Op.create 100 "Asha" 500, Op.create 7 "Ravi" 10])
          100 (Double.fin 200)).1 7
        = findAccount (run [Op.create 100 "Asha" 500, Op.create 7 "Ravi" 10]) 7) ∧
    ((5 : Int) ∉ run [Op.create 100 "Asha" 500, Op.create 7 "Ravi" 10] ∧
      (withdrawMoney (run [Op.create 100 "Asha" 500, Op.create 7 "Ravi" 10]) 5 (Double.fin 1)).1
        = run [Op.create 100 "Asha" 500, Op.create 7 "Ravi" 10]) :=
  have h1 : (7 : Int) ≠ 100 := by decide
  have h2 : (5 : Int) ∉ run [Op.create 100 "Asha" 500, Op.create 7 "Ravi" 10] := by decide!
  ⟨⟨h1, (deposit_withdraw_frame (run [Op.create 100 "Asha" 500, Op.create 7 "Ravi" 10])
      100 (Double.fin 200)).1.2.1 7 h1⟩,
    ⟨h2, ((deposit_withdraw_frame (run [Op.create 100 "Asha" 500, Op.create 7 "Ravi" 10])
      5 (Double.fin 1)).2.2.2.2 h2).2⟩⟩

end Bank
